import Mathlib

/-!
Verification of the SRT subtitle adjuster (srt_adjuster.py).

The Python source is shallowly embedded here.  Strings are modelled as lists
of characters (`Str`), Python integers as `Int`/`Nat`, fatal process exits as
`Option`/`Except` failures.  The three core functions of the source are
translated directly:

* `calculate_adjustment_milliseconds` — the offset parser;
* `adjust_time_code` — the time-code adjuster (its regular expression
  match of one-or-more-digit groups is `matchTimeCode`);
* `process_srt_file` — the line transformer (its strict two-digit /
  three-digit timing pattern is `matchTimingLine`, and `processLine` is the
  body of its loop).
-/

set_option maxHeartbeats 1000000

/-- Strings of the Python source, modelled as lists of characters. -/
abbrev Str := List Char

/-- Conversion from Lean string literals to the character-list model. -/
def chars (s : String) : Str := s.data

/-- Value of an ASCII decimal digit character, `none` for any other
character.  Models the digit class used both by Python's int() and by the
digit character class of the source's regular expressions (restricted to
ASCII digits; exotic Unicode digits are not modelled). -/
def charDigit (c : Char) : Option Nat :=
  if c = '0' then some 0 else if c = '1' then some 1 else if c = '2' then some 2
  else if c = '3' then some 3 else if c = '4' then some 4 else if c = '5' then some 5
  else if c = '6' then some 6 else if c = '7' then some 7 else if c = '8' then some 8
  else if c = '9' then some 9 else none

/-- Whether a character is an ASCII decimal digit. -/
def isDigitCh (c : Char) : Bool := (charDigit c).isSome

/-- Numeric value of a digit string, most significant digit first.
Models what Python's int() returns on a string of decimal digits. -/
def digitsVal (ds : Str) : Nat := ds.foldl (fun a c => a * 10 + (charDigit c).getD 0) 0

/-- Strip leading and trailing whitespace, as Python's int() does before
parsing (modelled with the ASCII whitespace characters). -/
def trimWs (s : Str) : Str :=
  ((s.dropWhile Char.isWhitespace).reverse.dropWhile Char.isWhitespace).reverse

/-- Parse a nonempty all-digit string, `none` otherwise. -/
def pyNat (ds : Str) : Option Nat :=
  if !ds.isEmpty && ds.all isDigitCh then some (digitsVal ds) else none

/-- Model of Python's built-in int() applied to a string: optional
surrounding whitespace, an optional single sign, then decimal digits.
(Underscore digit separators are not modelled.)  Returns `none` exactly
where int() raises ValueError. -/
def pyInt (s : Str) : Option Int :=
  let t := trimWs s
  if t = [] then none
  else if t.headD ' ' = '+' then (pyNat t.tail).map (fun n => (n : Int))
  else if t.headD ' ' = '-' then (pyNat t.tail).map (fun n => -(n : Int))
  else (pyNat t).map (fun n => (n : Int))

/-- Model of Python's str.split(sep) for a single-character separator. -/
def splitCh (sep : Char) : Str → List Str
  | [] => [[]]
  | c :: cs =>
    if c = sep then [] :: splitCh sep cs
    else
      let r := splitCh sep cs
      (c :: r.headD []) :: r.tail

/-- Model of Python's membership test (c in s) for a single character. -/
def containsCh (c : Char) (s : Str) : Bool := s.any (fun x => x = c)

/-- The marker-stripping prelude of calculate_adjustment_milliseconds:
if the string starts with A the sign is +1, with D the sign is -1, and the
marker is removed; otherwise the sign is +1 and the string is unchanged. -/
def stripMarker (s : Str) : Int × Str :=
  match s with
  | [] => (1, [])
  | c :: r => if c = 'A' then (1, r) else if c = 'D' then (-1, r) else (1, c :: r)

/-- The shared seconds-with-optional-milliseconds branch of
calculate_adjustment_milliseconds: if the segment contains a comma it must
split into exactly two integers (seconds, milliseconds); otherwise it is a
bare integer number of seconds and the milliseconds are 0.  A comma split
with more than two pieces is the ValueError of unpacking map(int, ...) into
two variables. -/
def parseSecondsMs (sm : Str) : Option (Int × Int) :=
  if containsCh ',' sm then
    match splitCh ',' sm with
    | [a, b] =>
      match pyInt a with
      | none => none
      | some s =>
        match pyInt b with
        | none => none
        | some ms => some (s, ms)
    | _ => none
  else (pyInt sm).map (fun s => (s, 0))

/-- calculate_adjustment_milliseconds from the source: strip an optional
A/D direction marker, split the remainder on colons, parse hours, minutes,
seconds and milliseconds according to the number of segments, and return
(h*3600000 + m*60000 + s*1000 + ms) * sign.  `none` models the uncaught
ValueError of int() on malformed numeric text. -/
def calculate_adjustment_milliseconds (adjustment_str : Str) : Option Int :=
  let sign := (stripMarker adjustment_str).1
  let rest := (stripMarker adjustment_str).2
  let hmsm : Option (Int × Int × Int × Int) :=
    match splitCh ':' rest with
    | [hs, mins, sm] =>
      match pyInt hs with
      | none => none
      | some h =>
        match pyInt mins with
        | none => none
        | some m =>
          match parseSecondsMs sm with
          | none => none
          | some (s, ms) => some (h, m, s, ms)
    | [mins, sm] =>
      match pyInt mins with
      | none => none
      | some m =>
        match parseSecondsMs sm with
        | none => none
        | some (s, ms) => some (0, m, s, ms)
    | _ =>
      match parseSecondsMs rest with
      | none => none
      | some (s, ms) => some (0, 0, s, ms)
  hmsm.map (fun q => (q.1 * 3600000 + q.2.1 * 60000 + q.2.2.1 * 1000 + q.2.2.2) * sign)

/-- The numeric sub-parts that the grammar of
calculate_adjustment_milliseconds selects from an offset specification and
hands to int(): the colon-separated segments, with the seconds segment
further split on a comma when it contains one. -/
def selectedSubparts (adjustment_str : Str) : List Str :=
  let rest := (stripMarker adjustment_str).2
  match splitCh ':' rest with
  | [hs, mins, sm] => [hs, mins] ++ (if containsCh ',' sm then splitCh ',' sm else [sm])
  | [mins, sm] => [mins] ++ (if containsCh ',' sm then splitCh ',' sm else [sm])
  | _ => if containsCh ',' rest then splitCh ',' rest else [rest]

/-- Longest prefix of decimal digits, with the remainder: models a greedy
one-or-more-digits group of the source's regular expressions. -/
def digitSpan : Str → Str × Str
  | [] => ([], [])
  | c :: cs =>
    if isDigitCh c then ((c :: (digitSpan cs).1), (digitSpan cs).2) else ([], c :: cs)

/-- Whether a string is empty or starts with a non-digit character: the
boundary condition at the end of a maximal digit run. -/
def startsNonDigit : Str → Bool
  | [] => true
  | c :: _ => !isDigitCh c

/-- Consume one expected literal character, as in a regular expression. -/
def expectCh (c : Char) : Str → Option Str
  | [] => none
  | x :: xs => if x = c then some xs else none

/-- The re.match of adjust_time_code: four one-or-more-digit groups
separated by colon, colon, comma, anchored at the start of the string and
free to leave a suffix unconsumed.  Returns the integer values of the four
groups (int() applied to a digit-only group is `digitsVal`). -/
def matchTimeCode (s : Str) : Option (Nat × Nat × Nat × Nat) :=
  if (digitSpan s).1.isEmpty then none else
  match expectCh ':' (digitSpan s).2 with
  | none => none
  | some r2 =>
    if (digitSpan r2).1.isEmpty then none else
    match expectCh ':' (digitSpan r2).2 with
    | none => none
    | some r4 =>
      if (digitSpan r4).1.isEmpty then none else
      match expectCh ',' (digitSpan r4).2 with
      | none => none
      | some r6 =>
        if (digitSpan r6).1.isEmpty then none else
        some (digitsVal (digitSpan s).1, digitsVal (digitSpan r2).1,
          digitsVal (digitSpan r4).1, digitsVal (digitSpan r6).1)

/-- The two fatal failure modes of adjust_time_code: the invalid-time-format
exit (carrying the offending string) and the negative-result exit. -/
inductive AdjustError where
  | invalidFormat (timeCode : Str)
  | negativeTime
deriving DecidableEq

instance {ε α : Type} [DecidableEq ε] [DecidableEq α] : DecidableEq (Except ε α)
  | Except.ok a, Except.ok b => decidable_of_iff (a = b) (by simp)
  | Except.ok _, Except.error _ => isFalse (by simp)
  | Except.error _, Except.ok _ => isFalse (by simp)
  | Except.error a, Except.error b => decidable_of_iff (a = b) (by simp)

/-- Zero-pad a digit string on the left to a minimum width, as Python's
format specifications 02 and 03 do for non-negative integers. -/
def pad (w : Nat) (ds : Str) : Str := List.replicate (w - ds.length) '0' ++ ds

/-- Decimal digits of a natural number, most significant first, computed
with structural fuel (fuel n+1 always suffices for n). -/
def natDigitsAux : Nat → Nat → Str → Str
  | 0, _, acc => acc
  | fuel + 1, n, acc =>
    if n < 10 then Nat.digitChar n :: acc
    else natDigitsAux fuel (n / 10) (Nat.digitChar (n % 10) :: acc)

/-- Decimal representation of a natural number, as Python's str/format. -/
def natDigits (n : Nat) : Str := natDigitsAux (n + 1) n []

/-- The f-string of adjust_time_code: hours, minutes, seconds zero-padded to
at least two digits and milliseconds to at least three. -/
def renderTimeCode (h m s ms : Nat) : Str :=
  pad 2 (natDigits h) ++ ':' :: (pad 2 (natDigits m) ++ ':' :: (pad 2 (natDigits s) ++ ',' :: pad 3 (natDigits ms)))

/-- The flattening step of adjust_time_code: total milliseconds of the four
parsed fields. -/
def totalOf (hours minutes seconds milliseconds : Nat) : Nat :=
  hours * 3600000 + minutes * 60000 + seconds * 1000 + milliseconds

/-- adjust_time_code from the source: parse the four fields with the loose
one-or-more-digit pattern, flatten to milliseconds, add the adjustment,
fail if the total is negative, otherwise decompose by successive divmod and
re-render zero-padded. -/
def adjust_time_code (time_code : Str) (adjustment : Int) : Except AdjustError Str :=
  match matchTimeCode time_code with
  | none => Except.error (AdjustError.invalidFormat time_code)
  | some (hours, minutes, seconds, milliseconds) =>
    if ((totalOf hours minutes seconds milliseconds : Nat) : Int) + adjustment < 0 then
      Except.error AdjustError.negativeTime
    else
      Except.ok (renderTimeCode
        ((((totalOf hours minutes seconds milliseconds : Nat) : Int) + adjustment).toNat / 3600000)
        ((((totalOf hours minutes seconds milliseconds : Nat) : Int) + adjustment).toNat % 3600000 / 60000)
        ((((totalOf hours minutes seconds milliseconds : Nat) : Int) + adjustment).toNat % 3600000 % 60000 / 1000)
        ((((totalOf hours minutes seconds milliseconds : Nat) : Int) + adjustment).toNat % 3600000 % 60000 % 1000))

/-- One strict timestamp of the line scanner's pattern: exactly two digits,
colon, two digits, colon, two digits, comma, three digits.  Returns the
twelve matched characters and the remainder of the string. -/
def matchStrictStamp (s : Str) : Option (Str × Str) :=
  match s with
  | a :: b :: c1 :: c :: d :: c2 :: e :: f :: c3 :: g :: h :: i :: rest =>
    if isDigitCh a && isDigitCh b && c1 == ':' && isDigitCh c && isDigitCh d && c2 == ':' &&
       isDigitCh e && isDigitCh f && c3 == ',' && isDigitCh g && isDigitCh h && isDigitCh i
    then some ([a, b, c1, c, d, c2, e, f, c3, g, h, i], rest)
    else none
  | _ => none

/-- The time_code_pattern.match of process_srt_file: a strict timestamp, the
literal arrow separator, a second strict timestamp, anchored at the start of
the line with any remainder ignored.  Returns the two matched timestamps. -/
def matchTimingLine (line : Str) : Option (Str × Str) :=
  match matchStrictStamp line with
  | none => none
  | some (startT, r1) =>
    match r1 with
    | s1 :: h1 :: h2 :: gt :: s2 :: r2 =>
      if s1 == ' ' && h1 == '-' && h2 == '-' && gt == '>' && s2 == ' ' then
        match matchStrictStamp r2 with
        | none => none
        | some (endT, _) => some (startT, endT)
      else none
    | _ => none

/-- The body of the loop of process_srt_file: a line matching the strict
timing pattern is replaced by the two adjusted timestamps joined by the
arrow and followed by a newline; any other line is kept unchanged. -/
def processLine (line : Str) (adjustment : Int) : Except AdjustError Str :=
  match matchTimingLine line with
  | none => Except.ok line
  | some (startT, endT) =>
    match adjust_time_code startT adjustment with
    | Except.error e => Except.error e
    | Except.ok s =>
      match adjust_time_code endT adjustment with
      | Except.error e => Except.error e
      | Except.ok e2 => Except.ok (s ++ ' ' :: '-' :: '-' :: '>' :: ' ' :: (e2 ++ ['\n']))

/-- process_srt_file from the source: transform every line in order; the
first fatal error of adjust_time_code aborts the whole run. -/
def process_srt_file (lines : List Str) (adjustment : Int) : Except AdjustError (List Str) :=
  match lines with
  | [] => Except.ok []
  | line :: rest =>
    match processLine line adjustment with
    | Except.error e => Except.error e
    | Except.ok l =>
      match process_srt_file rest adjustment with
      | Except.error e => Except.error e
      | Except.ok ls => Except.ok (l :: ls)

/-- The per-line contract of the line transformer: a line is unchanged when
it does not match the strict timing pattern, and otherwise replaced by the
adjusted timestamps joined by the arrow and a trailing newline, dropping
anything of the original line after the matched pattern. -/
def LineRel (adjustment : Int) (line out : Str) : Prop :=
  (matchTimingLine line = none ∧ out = line) ∨
  (∃ st en s2 e2, matchTimingLine line = some (st, en) ∧
    adjust_time_code st adjustment = Except.ok s2 ∧
    adjust_time_code en adjustment = Except.ok e2 ∧
    out = s2 ++ ' ' :: '-' :: '-' :: '>' :: ' ' :: (e2 ++ ['\n']))

/-- The loose four-field shape of the adjuster's pattern: a prefix of the
string consisting of one or more digits, colon, digits, colon, digits,
comma, digits, with an arbitrary remainder. -/
def HasLoosePrefix (tc : Str) : Prop :=
  ∃ d1 d2 d3 d4 rest,
    d1 ≠ [] ∧ (∀ c ∈ d1, isDigitCh c = true) ∧
    d2 ≠ [] ∧ (∀ c ∈ d2, isDigitCh c = true) ∧
    d3 ≠ [] ∧ (∀ c ∈ d3, isDigitCh c = true) ∧
    d4 ≠ [] ∧ (∀ c ∈ d4, isDigitCh c = true) ∧
    tc = d1 ++ ':' :: (d2 ++ ':' :: (d3 ++ ',' :: (d4 ++ rest)))

/-- A nonempty string of decimal digits. -/
def DigitStr (d : Str) : Prop := d ≠ [] ∧ ∀ c ∈ d, isDigitCh c = true

/-- The offset-specification grammar as the specification states it: the
string after the direction marker has one of three shapes, determined by
the number of colon-separated segments (three segments with hours, two
with hours zero, one with hours and minutes zero), the seconds segment
optionally carrying a comma-separated milliseconds part, and the value is
hours times 3600000 plus minutes times 60000 plus seconds times 1000 plus
milliseconds. -/
def OffsetBody (b : Str) (v : Nat) : Prop :=
  (∃ h m s ms, DigitStr h ∧ DigitStr m ∧ DigitStr s ∧ DigitStr ms ∧
    b = h ++ ':' :: (m ++ ':' :: (s ++ ',' :: ms)) ∧
    v = digitsVal h * 3600000 + digitsVal m * 60000 + digitsVal s * 1000 + digitsVal ms) ∨
  (∃ h m s, DigitStr h ∧ DigitStr m ∧ DigitStr s ∧
    b = h ++ ':' :: (m ++ ':' :: s) ∧
    v = digitsVal h * 3600000 + digitsVal m * 60000 + digitsVal s * 1000) ∨
  (∃ m s ms, DigitStr m ∧ DigitStr s ∧ DigitStr ms ∧
    b = m ++ ':' :: (s ++ ',' :: ms) ∧
    v = digitsVal m * 60000 + digitsVal s * 1000 + digitsVal ms) ∨
  (∃ m s, DigitStr m ∧ DigitStr s ∧
    b = m ++ ':' :: s ∧
    v = digitsVal m * 60000 + digitsVal s * 1000) ∨
  (∃ s ms, DigitStr s ∧ DigitStr ms ∧
    b = s ++ ',' :: ms ∧
    v = digitsVal s * 1000 + digitsVal ms) ∨
  (∃ s, DigitStr s ∧ b = s ∧ v = digitsVal s * 1000)

/-- The full offset-specification grammar: an optional leading direction
marker (A for a positive sign, D for a negative sign, absence for a
positive sign) followed by an offset body; the value is the signed body
value. -/
def OffsetGrammar (str : Str) (v : Int) : Prop :=
  ∃ b n, OffsetBody b n ∧
    ((str = b ∧ v = (n : Int)) ∨ (str = 'A' :: b ∧ v = (n : Int)) ∨
      (str = 'D' :: b ∧ v = -(n : Int)))

example : chars "ab" = ['a', 'b'] := rfl
example : calculate_adjustment_milliseconds (chars "A00:00:02,500") = some 2500 := by decide
example : calculate_adjustment_milliseconds (chars "D5") = some (-5000) := by decide
example : calculate_adjustment_milliseconds (chars "2:30") = some 150000 := by decide
example : calculate_adjustment_milliseconds (chars "1:2:3,45") = some 3723045 := by decide
example : calculate_adjustment_milliseconds (chars "2x") = none := by decide
example : calculate_adjustment_milliseconds (chars "1:2:3:4") = none := by decide
example : adjust_time_code (chars "00:00:10,000") 2500 = Except.ok (chars "00:00:12,500") := by decide
example : adjust_time_code (chars "00:00:00,000") (-1) = Except.error AdjustError.negativeTime := by decide
example : adjust_time_code (chars "1:2:3,4x") 0 = Except.ok (chars "01:02:03,004") := by decide
example : adjust_time_code (chars "00:99:00,000") 0 = Except.ok (chars "01:39:00,000") := by decide
example : processLine (chars "Hello world\n") 500 = Except.ok (chars "Hello world\n") := by decide
example : processLine (chars "00:00:10,000 --> 00:00:12,000\n") 2500
    = Except.ok (chars "00:00:12,500 --> 00:00:14,500\n") := by decide
example : process_srt_file [chars "1\n", chars "00:00:10,000 --> 00:00:12,000 X\n", chars "hi\n"] (-5000)
    = Except.ok [chars "1\n", chars "00:00:05,000 --> 00:00:07,000\n", chars "hi\n"] := by decide

/-! ### Basic facts about digit characters -/

theorem charDigit_lt {c : Char} {k : Nat} (h : charDigit c = some k) : k < 10 := by
  unfold charDigit at h
  split_ifs at h <;> simp_all <;> omega

theorem digitChar_charDigit {c : Char} {k : Nat} (h : charDigit c = some k) :
    Nat.digitChar k = c := by
  unfold charDigit at h
  split_ifs at h <;> simp_all <;> subst h <;> rfl

theorem charDigit_digitChar {k : Nat} (h : k < 10) : charDigit (Nat.digitChar k) = some k := by
  interval_cases k <;> decide

theorem isDigitCh_digitChar {k : Nat} (h : k < 10) : isDigitCh (Nat.digitChar k) = true := by
  simp [isDigitCh, charDigit_digitChar h]

theorem isDigitCh_exists {c : Char} (h : isDigitCh c = true) :
    ∃ k, charDigit c = some k ∧ k < 10 ∧ Nat.digitChar k = c := by
  rcases Option.isSome_iff_exists.mp h with ⟨k, hk⟩
  exact ⟨k, hk, charDigit_lt hk, digitChar_charDigit hk⟩

theorem isDigitCh_ne {c : Char} (h : isDigitCh c = true) :
    c ≠ ':' ∧ c ≠ ',' ∧ c ≠ '+' ∧ c ≠ '-' ∧ c ≠ 'A' ∧ c ≠ 'D' ∧ c.isWhitespace = false := by
  unfold isDigitCh charDigit at h
  split_ifs at h <;> simp_all

theorem digitsVal_pair {a b : Char} {ka kb : Nat}
    (ha : charDigit a = some ka) (hb : charDigit b = some kb) :
    digitsVal [a, b] = ka * 10 + kb := by
  simp [digitsVal, ha, hb]

theorem digitsVal_triple {a b c : Char} {ka kb kc : Nat}
    (ha : charDigit a = some ka) (hb : charDigit b = some kb) (hc : charDigit c = some kc) :
    digitsVal [a, b, c] = (ka * 10 + kb) * 10 + kc := by
  simp [digitsVal, ha, hb, hc]

/-! ### Facts about the string helpers -/

theorem dropWhile_eq_self_of_all {p : Char → Bool} {l : Str}
    (h : ∀ c ∈ l, p c = false) : l.dropWhile p = l := by
  cases l with
  | nil => rfl
  | cons c cs => simp [List.dropWhile_cons, h c (by simp)]

theorem trimWs_digits {d : Str} (hd : ∀ c ∈ d, isDigitCh c = true) : trimWs d = d := by
  unfold trimWs
  rw [dropWhile_eq_self_of_all (fun c hc => ((isDigitCh_ne (hd c hc)).2.2.2.2.2.2)),
    dropWhile_eq_self_of_all
      (fun c hc => ((isDigitCh_ne (hd c (List.mem_reverse.mp hc))).2.2.2.2.2.2)),
    List.reverse_reverse]

theorem pyNat_digits {d : Str} (hne : d ≠ []) (hd : ∀ c ∈ d, isDigitCh c = true) :
    pyNat d = some (digitsVal d) := by
  unfold pyNat
  have hcond : (!d.isEmpty && d.all isDigitCh) = true := by
    simp [List.all_eq_true, hne]
    exact hd
  rw [if_pos hcond]

theorem pyInt_digits {d : Str} (hne : d ≠ []) (hd : ∀ c ∈ d, isDigitCh c = true) :
    pyInt d = some ((digitsVal d : Nat) : Int) := by
  unfold pyInt
  rw [trimWs_digits hd]
  cases d with
  | nil => exact absurd rfl hne
  | cons c cs =>
    have hdc := isDigitCh_ne (hd c (by simp))
    rw [if_neg (by simp), if_neg (by simpa using hdc.2.2.1), if_neg (by simpa using hdc.2.2.2.1),
      pyNat_digits hne hd]
    rfl

theorem splitCh_not_mem {sep : Char} {a : Str} (h : ∀ c ∈ a, c ≠ sep) :
    splitCh sep a = [a] := by
  induction a with
  | nil => rfl
  | cons c cs ih =>
    have hc : c ≠ sep := h c (by simp)
    simp [splitCh, hc, ih (fun x hx => h x (by simp [hx]))]

theorem splitCh_append {sep : Char} {a : Str} (b : Str) (h : ∀ c ∈ a, c ≠ sep) :
    splitCh sep (a ++ sep :: b) = a :: splitCh sep b := by
  induction a with
  | nil => simp [splitCh]
  | cons c cs ih =>
    have hc : c ≠ sep := h c (by simp)
    simp [splitCh, hc, ih (fun x hx => h x (by simp [hx]))]

theorem containsCh_append_cons (c : Char) (a b : Str) :
    containsCh c (a ++ c :: b) = true := by
  simp [containsCh]

theorem containsCh_eq_false {c : Char} {a : Str} (h : ∀ x ∈ a, x ≠ c) :
    containsCh c a = false := by
  simp only [containsCh, List.any_eq_false, decide_eq_true_eq]
  exact h

theorem stripMarker_digit_head {c : Char} (r : Str) (h : isDigitCh c = true) :
    stripMarker (c :: r) = (1, c :: r) := by
  have := isDigitCh_ne h
  simp [stripMarker, this.2.2.2.2.1, this.2.2.2.2.2.1]

/-! ### Decimal rendering lemmas -/

theorem natDigitsAux_small {fuel n : Nat} (acc : Str) (h : n < 10) (hf : 1 ≤ fuel) :
    natDigitsAux fuel n acc = Nat.digitChar n :: acc := by
  cases fuel with
  | zero => omega
  | succ f => simp [natDigitsAux, h]

theorem natDigitsAux_two {fuel n : Nat} (acc : Str) (h10 : 10 ≤ n) (h : n < 100)
    (hf : 2 ≤ fuel) :
    natDigitsAux fuel n acc = Nat.digitChar (n / 10) :: Nat.digitChar (n % 10) :: acc := by
  cases fuel with
  | zero => omega
  | succ f =>
    simp only [natDigitsAux]
    rw [if_neg (by omega)]
    exact natDigitsAux_small _ (by omega) (by omega)

theorem natDigitsAux_three {fuel n : Nat} (acc : Str) (h100 : 100 ≤ n) (h : n < 1000)
    (hf : 3 ≤ fuel) :
    natDigitsAux fuel n acc =
      Nat.digitChar (n / 100) :: Nat.digitChar (n / 10 % 10) :: Nat.digitChar (n % 10) :: acc := by
  cases fuel with
  | zero => omega
  | succ f =>
    simp only [natDigitsAux]
    rw [if_neg (by omega)]
    rw [natDigitsAux_two _ (by omega) (by omega) (by omega)]
    have hdd : n / 10 / 10 = n / 100 := by omega
    rw [hdd]

theorem natDigits_small {n : Nat} (h : n < 10) : natDigits n = [Nat.digitChar n] :=
  natDigitsAux_small [] h (by omega)

theorem natDigits_two {n : Nat} (h10 : 10 ≤ n) (h : n < 100) :
    natDigits n = [Nat.digitChar (n / 10), Nat.digitChar (n % 10)] :=
  natDigitsAux_two [] h10 h (by omega)

theorem natDigits_three {n : Nat} (h100 : 100 ≤ n) (h : n < 1000) :
    natDigits n = [Nat.digitChar (n / 100), Nat.digitChar (n / 10 % 10), Nat.digitChar (n % 10)] :=
  natDigitsAux_three [] h100 h (by omega)

theorem pad_length_ge (w : Nat) (ds : Str) : w ≤ (pad w ds).length := by
  simp [pad]
  omega

theorem pad2_eq {n : Nat} (h : n < 100) :
    pad 2 (natDigits n) = [Nat.digitChar (n / 10), Nat.digitChar (n % 10)] := by
  by_cases h10 : n < 10
  · rw [natDigits_small h10]
    have hd : n / 10 = 0 := by omega
    have hm : n % 10 = n := by omega
    rw [hd, hm]
    rfl
  · rw [natDigits_two (by omega) h]
    rfl

theorem pad3_eq {n : Nat} (h : n < 1000) :
    pad 3 (natDigits n) =
      [Nat.digitChar (n / 100), Nat.digitChar (n / 10 % 10), Nat.digitChar (n % 10)] := by
  by_cases h10 : n < 10
  · rw [natDigits_small h10]
    have h1 : n / 100 = 0 := by omega
    have h2 : n / 10 % 10 = 0 := by omega
    have h3 : n % 10 = n := by omega
    rw [h1, h2, h3]
    rfl
  · by_cases h100 : n < 100
    · rw [natDigits_two (by omega) h100]
      have h1 : n / 100 = 0 := by omega
      have h2 : n / 10 % 10 = n / 10 := by omega
      rw [h1, h2]
      rfl
    · rw [natDigits_three (by omega) h]
      rfl

theorem renderTimeCode_eq {h m s ms : Nat} (hh : h < 100) (hm : m < 100) (hs : s < 100)
    (hms : ms < 1000) :
    renderTimeCode h m s ms =
      [Nat.digitChar (h / 10), Nat.digitChar (h % 10), ':',
       Nat.digitChar (m / 10), Nat.digitChar (m % 10), ':',
       Nat.digitChar (s / 10), Nat.digitChar (s % 10), ',',
       Nat.digitChar (ms / 100), Nat.digitChar (ms / 10 % 10), Nat.digitChar (ms % 10)] := by
  rw [renderTimeCode, pad2_eq hh, pad2_eq hm, pad2_eq hs, pad3_eq hms]
  rfl

/-! ### Digit-run lemmas for the loose time-code pattern -/

theorem digitSpan_eq {d : Str} (r : Str) (hd : ∀ c ∈ d, isDigitCh c = true)
    (hr : startsNonDigit r = true) : digitSpan (d ++ r) = (d, r) := by
  induction d with
  | nil =>
    cases r with
    | nil => rfl
    | cons c cs =>
      simp only [startsNonDigit, Bool.not_eq_true'] at hr
      simp [digitSpan, hr]
  | cons c cs ih =>
    have hc : isDigitCh c = true := hd c (by simp)
    have ihr := ih (fun x hx => hd x (by simp [hx]))
    simp [digitSpan, hc, ihr]

theorem digitSpan_sound : ∀ {s d r : Str}, digitSpan s = (d, r) →
    s = d ++ r ∧ (∀ c ∈ d, isDigitCh c = true) ∧ startsNonDigit r = true := by
  intro s
  induction s with
  | nil =>
    intro d r h
    injection h with h1 h2
    subst h1
    subst h2
    exact ⟨rfl, by simp, rfl⟩
  | cons c cs ih =>
    intro d r h
    simp only [digitSpan] at h
    split_ifs at h with hc
    · injection h with h1 h2
      subst h1
      subst h2
      obtain ⟨ih1, ih2, ih3⟩ := ih rfl
      refine ⟨?_, ?_, ih3⟩
      · rw [List.cons_append, ← ih1]
      · intro x hx
        rcases List.mem_cons.mp hx with hx | hx
        · rw [hx]
          exact hc
        · exact ih2 x hx
    · injection h with h1 h2
      subst h1
      subst h2
      refine ⟨rfl, by simp, ?_⟩
      simp only [startsNonDigit, Bool.not_eq_true']
      simpa using hc

theorem digitSpan_fst_cons {c : Char} (t : Str) (h : isDigitCh c = true) :
    (digitSpan (c :: t)).1 = c :: (digitSpan t).1 := by
  simp [digitSpan, h]

theorem expectCh_cons_self (c : Char) (xs : Str) : expectCh c (c :: xs) = some xs := by
  simp [expectCh]

theorem expectCh_eq_some {c : Char} : ∀ {s r : Str}, expectCh c s = some r → s = c :: r := by
  intro s r h
  cases s with
  | nil => simp [expectCh] at h
  | cons x xs =>
    simp only [expectCh] at h
    split_ifs at h with hx
    obtain rfl : xs = r := by injection h
    rw [hx]

theorem startsNonDigit_colon (t : Str) : startsNonDigit (':' :: t) = true := rfl

theorem startsNonDigit_comma (t : Str) : startsNonDigit (',' :: t) = true := rfl

theorem isEmpty_false_of_ne {l : Str} (h : l ≠ []) : l.isEmpty = false := by
  cases l
  · exact absurd rfl h
  · rfl

theorem ne_nil_of_not_isEmpty {l : Str} (h : ¬ l.isEmpty = true) : l ≠ [] := by
  cases l
  · simp at h
  · simp

/-! ### The loose pattern of adjust_time_code -/

theorem matchTimeCode_build {d1 d2 d3 d4 : Str} (rest : Str)
    (h1 : d1 ≠ []) (hd1 : ∀ c ∈ d1, isDigitCh c = true)
    (h2 : d2 ≠ []) (hd2 : ∀ c ∈ d2, isDigitCh c = true)
    (h3 : d3 ≠ []) (hd3 : ∀ c ∈ d3, isDigitCh c = true)
    (h4 : d4 ≠ []) (hd4 : ∀ c ∈ d4, isDigitCh c = true)
    (hrest : startsNonDigit rest = true) :
    matchTimeCode (d1 ++ ':' :: (d2 ++ ':' :: (d3 ++ ',' :: (d4 ++ rest)))) =
      some (digitsVal d1, digitsVal d2, digitsVal d3, digitsVal d4) := by
  simp [matchTimeCode,
    digitSpan_eq (':' :: (d2 ++ ':' :: (d3 ++ ',' :: (d4 ++ rest)))) hd1 (startsNonDigit_colon _),
    digitSpan_eq (':' :: (d3 ++ ',' :: (d4 ++ rest))) hd2 (startsNonDigit_colon _),
    digitSpan_eq (',' :: (d4 ++ rest)) hd3 (startsNonDigit_comma _),
    digitSpan_eq rest hd4 hrest,
    expectCh_cons_self, isEmpty_false_of_ne h1, isEmpty_false_of_ne h2,
    isEmpty_false_of_ne h3, isEmpty_false_of_ne h4]

theorem matchTimeCode_some_decomp {s : Str} {h m sec ms : Nat}
    (hm : matchTimeCode s = some (h, m, sec, ms)) :
    ∃ d1 d2 d3 d4 rest,
      d1 ≠ [] ∧ (∀ c ∈ d1, isDigitCh c = true) ∧
      d2 ≠ [] ∧ (∀ c ∈ d2, isDigitCh c = true) ∧
      d3 ≠ [] ∧ (∀ c ∈ d3, isDigitCh c = true) ∧
      d4 ≠ [] ∧ (∀ c ∈ d4, isDigitCh c = true) ∧
      startsNonDigit rest = true ∧
      s = d1 ++ ':' :: (d2 ++ ':' :: (d3 ++ ',' :: (d4 ++ rest))) ∧
      h = digitsVal d1 ∧ m = digitsVal d2 ∧ sec = digitsVal d3 ∧ ms = digitsVal d4 := by
  unfold matchTimeCode at hm
  split_ifs at hm with e1
  split at hm
  · exact absurd hm (by simp)
  next r2 hE1 =>
  split_ifs at hm with e2
  split at hm
  · exact absurd hm (by simp)
  next r4 hE2 =>
  split_ifs at hm with e3
  split at hm
  · exact absurd hm (by simp)
  next r6 hE3 =>
  split_ifs at hm with e4
  obtain ⟨hv1, hv2, hv3, hv4⟩ : h = digitsVal (digitSpan s).1 ∧ m = digitsVal (digitSpan r2).1 ∧
      sec = digitsVal (digitSpan r4).1 ∧ ms = digitsVal (digitSpan r6).1 := by
    have := hm
    injection this with hp
    injection hp with ha hp
    injection hp with hb hp
    injection hp with hc hd
    exact ⟨ha.symm, hb.symm, hc.symm, hd.symm⟩
  obtain ⟨hs1, hds1, hsn1⟩ := digitSpan_sound rfl
  obtain ⟨hs2, hds2, hsn2⟩ := digitSpan_sound rfl
  obtain ⟨hs3, hds3, hsn3⟩ := digitSpan_sound rfl
  obtain ⟨hs4, hds4, hsn4⟩ := digitSpan_sound rfl
  refine ⟨(digitSpan s).1, (digitSpan r2).1, (digitSpan r4).1, (digitSpan r6).1,
    (digitSpan r6).2, ne_nil_of_not_isEmpty e1, hds1, ne_nil_of_not_isEmpty e2, hds2,
    ne_nil_of_not_isEmpty e3, hds3, ne_nil_of_not_isEmpty e4, hds4, hsn4, ?_,
    hv1, hv2, hv3, hv4⟩
  rw [expectCh_eq_some hE1] at hs1
  rw [hs2] at hs1
  rw [expectCh_eq_some hE2] at hs1
  rw [hs3] at hs1
  rw [expectCh_eq_some hE3] at hs1
  rw [hs4] at hs1
  exact hs1

/-! ### The strict pattern of process_srt_file -/

theorem matchStrictStamp_build {a b c d e f g h i : Char} (rest : Str)
    (da : isDigitCh a = true) (db : isDigitCh b = true) (dc : isDigitCh c = true)
    (dd : isDigitCh d = true) (de : isDigitCh e = true) (df : isDigitCh f = true)
    (dg : isDigitCh g = true) (dh : isDigitCh h = true) (di : isDigitCh i = true) :
    matchStrictStamp (a :: b :: ':' :: c :: d :: ':' :: e :: f :: ',' :: g :: h :: i :: rest)
      = some ([a, b, ':', c, d, ':', e, f, ',', g, h, i], rest) := by
  simp [matchStrictStamp, da, db, dc, dd, de, df, dg, dh, di]

theorem matchStrictStamp_some : ∀ {u st rest : Str}, matchStrictStamp u = some (st, rest) →
    ∃ a b c d e f g h i,
      isDigitCh a = true ∧ isDigitCh b = true ∧ isDigitCh c = true ∧ isDigitCh d = true ∧
      isDigitCh e = true ∧ isDigitCh f = true ∧ isDigitCh g = true ∧ isDigitCh h = true ∧
      isDigitCh i = true ∧ st = [a, b, ':', c, d, ':', e, f, ',', g, h, i] ∧ u = st ++ rest := by
  intro u st rest hm
  unfold matchStrictStamp at hm
  split at hm
  case h_2 => exact absurd hm (by simp)
  case h_1 a b c1 c d c2 e f c3 g h i r =>
    split_ifs at hm with hcond
    simp only [Bool.and_eq_true, beq_iff_eq] at hcond
    obtain ⟨⟨⟨⟨⟨⟨⟨⟨⟨⟨⟨da, db⟩, hc1⟩, dc⟩, dd⟩, hc2⟩, de⟩, df⟩, hc3⟩, dg⟩, dh⟩, di⟩ := hcond
    subst hc1
    subst hc2
    subst hc3
    injection hm with hp
    injection hp with hst hrest
    subst hst
    subst hrest
    exact ⟨a, b, c, d, e, f, g, h, i, da, db, dc, dd, de, df, dg, dh, di, rfl, rfl⟩

theorem matchTimingLine_eq_some_of {line st en r2 rest : Str}
    (h1 : matchStrictStamp line = some (st, ' ' :: '-' :: '-' :: '>' :: ' ' :: r2))
    (h2 : matchStrictStamp r2 = some (en, rest)) :
    matchTimingLine line = some (st, en) := by
  unfold matchTimingLine
  rw [h1]
  simp [h2]

theorem matchTimingLine_some : ∀ {line st en : Str}, matchTimingLine line = some (st, en) →
    ∃ r2 rest, matchStrictStamp line = some (st, ' ' :: '-' :: '-' :: '>' :: ' ' :: r2) ∧
      matchStrictStamp r2 = some (en, rest) := by
  intro line st en hm
  unfold matchTimingLine at hm
  split at hm
  case h_1 => exact absurd hm (by simp)
  case h_2 startT r1 heq =>
    split at hm
    case h_2 => exact absurd hm (by simp)
    case h_1 s1 h1 h2 gt s2 r2 =>
      split_ifs at hm with hcond
      simp only [Bool.and_eq_true, beq_iff_eq] at hcond
      obtain ⟨⟨⟨⟨e1, e2⟩, e3⟩, e4⟩, e5⟩ := hcond
      subst e1
      subst e2
      subst e3
      subst e4
      subst e5
      split at hm
      next => exact absurd hm (by simp)
      next endT r3 heq2 =>
        injection hm with hp
        injection hp with hst hen
        subst hst
        subst hen
        exact ⟨r2, r3, heq, heq2⟩

/-! ### adjust_time_code lemmas -/

theorem adjust_eq_ok {tc : Str} {adj : Int} {h m s ms : Nat}
    (hm : matchTimeCode tc = some (h, m, s, ms))
    (hnn : 0 ≤ ((totalOf h m s ms : Nat) : Int) + adj) :
    adjust_time_code tc adj =
      Except.ok (renderTimeCode
        ((((totalOf h m s ms : Nat) : Int) + adj).toNat / 3600000)
        ((((totalOf h m s ms : Nat) : Int) + adj).toNat % 3600000 / 60000)
        ((((totalOf h m s ms : Nat) : Int) + adj).toNat % 3600000 % 60000 / 1000)
        ((((totalOf h m s ms : Nat) : Int) + adj).toNat % 3600000 % 60000 % 1000)) := by
  unfold adjust_time_code
  split
  next hnone => rw [hnone] at hm; exact absurd hm (by simp)
  next h2 m2 s2 ms2 hsome =>
    rw [hm] at hsome
    simp only [Option.some.injEq, Prod.mk.injEq] at hsome
    obtain ⟨e1, e2, e3, e4⟩ := hsome
    subst e1
    subst e2
    subst e3
    subst e4
    rw [if_neg (by omega)]

theorem adjust_neg_iff {tc : Str} {adj : Int} {h m s ms : Nat}
    (hm : matchTimeCode tc = some (h, m, s, ms)) :
    (adjust_time_code tc adj = Except.error AdjustError.negativeTime ↔
      ((totalOf h m s ms : Nat) : Int) + adj < 0) := by
  unfold adjust_time_code
  split
  next hnone => rw [hnone] at hm; exact absurd hm (by simp)
  next h2 m2 s2 ms2 hsome =>
    rw [hm] at hsome
    simp only [Option.some.injEq, Prod.mk.injEq] at hsome
    obtain ⟨e1, e2, e3, e4⟩ := hsome
    subst e1
    subst e2
    subst e3
    subst e4
    by_cases hlt : ((totalOf h m s ms : Nat) : Int) + adj < 0
    · simp [hlt]
    · simp [hlt]

theorem adjust_invalid_iff (tc : Str) (adj : Int) :
    adjust_time_code tc adj = Except.error (AdjustError.invalidFormat tc) ↔
      matchTimeCode tc = none := by
  unfold adjust_time_code
  split
  next hnone => simp [hnone]
  next h2 m2 s2 ms2 hsome =>
    constructor
    · intro hcontr
      split_ifs at hcontr
      exact absurd hcontr (by simp)
    · intro hn
      rw [hn] at hsome
      exact absurd hsome (by simp)

theorem adjust_error_negative {tc : Str} {adj : Int} {err : AdjustError} {h m s ms : Nat}
    (hm : matchTimeCode tc = some (h, m, s, ms))
    (he : adjust_time_code tc adj = Except.error err) : err = AdjustError.negativeTime := by
  unfold adjust_time_code at he
  split at he
  next hnone => rw [hnone] at hm; exact absurd hm (by simp)
  next h2 m2 s2 ms2 hsome =>
    split_ifs at he
    injection he with he1
    exact he1.symm

/-! ### processLine lemmas -/

theorem processLine_none {line : Str} (adj : Int) (h : matchTimingLine line = none) :
    processLine line adj = Except.ok line := by
  unfold processLine
  split
  next heq => rfl
  next st en heq =>
    rw [h] at heq
    exact absurd heq (by simp)

theorem processLine_eq_ok {line st en s2 e2 : Str} {adj : Int}
    (h : matchTimingLine line = some (st, en))
    (hs : adjust_time_code st adj = Except.ok s2)
    (he : adjust_time_code en adj = Except.ok e2) :
    processLine line adj =
      Except.ok (s2 ++ ' ' :: '-' :: '-' :: '>' :: ' ' :: (e2 ++ ['\n'])) := by
  unfold processLine
  split
  next heq => rw [heq] at h; exact absurd h (by simp)
  next st' en' heq =>
    rw [h] at heq
    simp only [Option.some.injEq, Prod.mk.injEq] at heq
    obtain ⟨e1', e2'⟩ := heq
    subst e1'
    subst e2'
    split
    next errv heq2 => rw [hs] at heq2; exact absurd heq2 (by simp)
    next s2' heq2 =>
      rw [hs] at heq2
      injection heq2 with hs2
      subst hs2
      split
      next errv heq3 => rw [he] at heq3; exact absurd heq3 (by simp)
      next e2' heq3 =>
        rw [he] at heq3
        injection heq3 with he2
        subst he2
        rfl

theorem processLine_ok_inv {line out : Str} {adj : Int}
    (h : processLine line adj = Except.ok out) :
    (matchTimingLine line = none ∧ out = line) ∨
    ∃ st en s2 e2, matchTimingLine line = some (st, en) ∧
      adjust_time_code st adj = Except.ok s2 ∧ adjust_time_code en adj = Except.ok e2 ∧
      out = s2 ++ ' ' :: '-' :: '-' :: '>' :: ' ' :: (e2 ++ ['\n']) := by
  unfold processLine at h
  split at h
  next heq =>
    left
    injection h with h1
    exact ⟨heq, h1.symm⟩
  next st en heq =>
    split at h
    next => exact absurd h (by simp)
    next s2 heq2 =>
      split at h
      next => exact absurd h (by simp)
      next e2 heq3 =>
        injection h with h1
        exact Or.inr ⟨st, en, s2, e2, heq, heq2, heq3, h1.symm⟩

/-! ### Values of two- and three-digit groups -/

theorem digitsVal_pair_lt {a b : Char} (da : isDigitCh a = true) (db : isDigitCh b = true) :
    digitsVal [a, b] < 100 := by
  obtain ⟨ka, hka, hka10, _⟩ := isDigitCh_exists da
  obtain ⟨kb, hkb, hkb10, _⟩ := isDigitCh_exists db
  rw [digitsVal_pair hka hkb]
  omega

theorem digitsVal_triple_lt {a b c : Char} (da : isDigitCh a = true) (db : isDigitCh b = true)
    (dc : isDigitCh c = true) : digitsVal [a, b, c] < 1000 := by
  obtain ⟨ka, hka, hka10, _⟩ := isDigitCh_exists da
  obtain ⟨kb, hkb, hkb10, _⟩ := isDigitCh_exists db
  obtain ⟨kc, hkc, hkc10, _⟩ := isDigitCh_exists dc
  rw [digitsVal_triple hka hkb hkc]
  omega

theorem matchTimeCode_stamp {a b c d e f g h i : Char}
    (da : isDigitCh a = true) (db : isDigitCh b = true) (dc : isDigitCh c = true)
    (dd : isDigitCh d = true) (de : isDigitCh e = true) (df : isDigitCh f = true)
    (dg : isDigitCh g = true) (dh : isDigitCh h = true) (di : isDigitCh i = true) :
    matchTimeCode [a, b, ':', c, d, ':', e, f, ',', g, h, i] =
      some (digitsVal [a, b], digitsVal [c, d], digitsVal [e, f], digitsVal [g, h, i]) := by
  have hb := matchTimeCode_build []
    (show ([a, b] : Str) ≠ [] by simp) (by simp [List.forall_mem_cons, da, db])
    (show ([c, d] : Str) ≠ [] by simp) (by simp [List.forall_mem_cons, dc, dd])
    (show ([e, f] : Str) ≠ [] by simp) (by simp [List.forall_mem_cons, de, df])
    (show ([g, h, i] : Str) ≠ [] by simp) (by simp [List.forall_mem_cons, dg, dh, di]) rfl
  simpa using hb

theorem renderTimeCode_stamp {a b c d e f g h i : Char}
    (da : isDigitCh a = true) (db : isDigitCh b = true) (dc : isDigitCh c = true)
    (dd : isDigitCh d = true) (de : isDigitCh e = true) (df : isDigitCh f = true)
    (dg : isDigitCh g = true) (dh : isDigitCh h = true) (di : isDigitCh i = true) :
    renderTimeCode (digitsVal [a, b]) (digitsVal [c, d]) (digitsVal [e, f]) (digitsVal [g, h, i])
      = [a, b, ':', c, d, ':', e, f, ',', g, h, i] := by
  obtain ⟨ka, hka, hka10, hcka⟩ := isDigitCh_exists da
  obtain ⟨kb, hkb, hkb10, hckb⟩ := isDigitCh_exists db
  obtain ⟨kc, hkc, hkc10, hckc⟩ := isDigitCh_exists dc
  obtain ⟨kd, hkd, hkd10, hckd⟩ := isDigitCh_exists dd
  obtain ⟨ke, hke, hke10, hcke⟩ := isDigitCh_exists de
  obtain ⟨kf, hkf, hkf10, hckf⟩ := isDigitCh_exists df
  obtain ⟨kg, hkg, hkg10, hckg⟩ := isDigitCh_exists dg
  obtain ⟨kh, hkh, hkh10, hckh⟩ := isDigitCh_exists dh
  obtain ⟨ki, hki, hki10, hcki⟩ := isDigitCh_exists di
  rw [digitsVal_pair hka hkb, digitsVal_pair hkc hkd, digitsVal_pair hke hkf,
    digitsVal_triple hkg hkh hki]
  rw [renderTimeCode_eq (by omega) (by omega) (by omega) (by omega)]
  have e1 : (ka * 10 + kb) / 10 = ka := by omega
  have e2 : (ka * 10 + kb) % 10 = kb := by omega
  have e3 : (kc * 10 + kd) / 10 = kc := by omega
  have e4 : (kc * 10 + kd) % 10 = kd := by omega
  have e5 : (ke * 10 + kf) / 10 = ke := by omega
  have e6 : (ke * 10 + kf) % 10 = kf := by omega
  have e7 : ((kg * 10 + kh) * 10 + ki) / 100 = kg := by omega
  have e8 : ((kg * 10 + kh) * 10 + ki) / 10 % 10 = kh := by omega
  have e9 : ((kg * 10 + kh) * 10 + ki) % 10 = ki := by omega
  rw [e1, e2, e3, e4, e5, e6, e7, e8, e9, hcka, hckb, hckc, hckd, hcke, hckf, hckg, hckh, hcki]

theorem renderTimeCode_digits {H M S MS : Nat} (hH : H < 100) (hM : M < 100) (hS : S < 100)
    (hMS : MS < 1000) :
    renderTimeCode H M S MS =
      [Nat.digitChar (H / 10), Nat.digitChar (H % 10), ':',
       Nat.digitChar (M / 10), Nat.digitChar (M % 10), ':',
       Nat.digitChar (S / 10), Nat.digitChar (S % 10), ',',
       Nat.digitChar (MS / 100), Nat.digitChar (MS / 10 % 10), Nat.digitChar (MS % 10)] :=
  renderTimeCode_eq hH hM hS hMS

theorem matchTimeCode_render {H M S MS : Nat} (hH : H < 100) (hM : M < 100) (hS : S < 100)
    (hMS : MS < 1000) :
    matchTimeCode (renderTimeCode H M S MS) = some (H, M, S, MS) := by
  rw [renderTimeCode_digits hH hM hS hMS]
  rw [matchTimeCode_stamp (isDigitCh_digitChar (by omega)) (isDigitCh_digitChar (by omega))
    (isDigitCh_digitChar (by omega)) (isDigitCh_digitChar (by omega))
    (isDigitCh_digitChar (by omega)) (isDigitCh_digitChar (by omega))
    (isDigitCh_digitChar (by omega)) (isDigitCh_digitChar (by omega))
    (isDigitCh_digitChar (by omega))]
  rw [digitsVal_pair (charDigit_digitChar (by omega)) (charDigit_digitChar (by omega)),
    digitsVal_pair (charDigit_digitChar (by omega)) (charDigit_digitChar (by omega)),
    digitsVal_pair (charDigit_digitChar (by omega)) (charDigit_digitChar (by omega)),
    digitsVal_triple (charDigit_digitChar (by omega)) (charDigit_digitChar (by omega))
      (charDigit_digitChar (by omega))]
  have e1 : H / 10 * 10 + H % 10 = H := by omega
  have e2 : M / 10 * 10 + M % 10 = M := by omega
  have e3 : S / 10 * 10 + S % 10 = S := by omega
  have e4 : (MS / 100 * 10 + MS / 10 % 10) * 10 + MS % 10 = MS := by omega
  rw [e1, e2, e3, e4]

theorem matchStrictStamp_render {H M S MS : Nat} (rest : Str) (hH : H < 100) (hM : M < 100)
    (hS : S < 100) (hMS : MS < 1000) :
    matchStrictStamp (renderTimeCode H M S MS ++ rest)
      = some (renderTimeCode H M S MS, rest) := by
  rw [renderTimeCode_digits hH hM hS hMS]
  exact matchStrictStamp_build rest (isDigitCh_digitChar (by omega))
    (isDigitCh_digitChar (by omega)) (isDigitCh_digitChar (by omega))
    (isDigitCh_digitChar (by omega)) (isDigitCh_digitChar (by omega))
    (isDigitCh_digitChar (by omega)) (isDigitCh_digitChar (by omega))
    (isDigitCh_digitChar (by omega)) (isDigitCh_digitChar (by omega))

/-! ### Claim theorems -/

/-- C2: for every time-code string whose four fields parse and every
adjustment with a non-negative adjusted total, the adjuster returns the
rendered HH:MM:SS,mmm string whose minutes and seconds are at most 59,
milliseconds at most 999, hours the integer division of the adjusted total
by 3600000, with hours, minutes and seconds zero-padded to at least two
digits and milliseconds to at least three. -/
theorem C2_adjust_render_bounds (tc : Str) (adj : Int) (h m s ms : Nat)
    (hm : matchTimeCode tc = some (h, m, s, ms))
    (hnn : 0 ≤ ((totalOf h m s ms : Nat) : Int) + adj) :
    ∃ H M S MS,
      adjust_time_code tc adj = Except.ok (renderTimeCode H M S MS) ∧
      H = (((totalOf h m s ms : Nat) : Int) + adj).toNat / 3600000 ∧
      M ≤ 59 ∧ S ≤ 59 ∧ MS ≤ 999 ∧
      renderTimeCode H M S MS =
        pad 2 (natDigits H) ++ ':' :: (pad 2 (natDigits M) ++ ':' ::
          (pad 2 (natDigits S) ++ ',' :: pad 3 (natDigits MS))) ∧
      2 ≤ (pad 2 (natDigits H)).length ∧ 2 ≤ (pad 2 (natDigits M)).length ∧
      2 ≤ (pad 2 (natDigits S)).length ∧ 3 ≤ (pad 3 (natDigits MS)).length := by
  refine ⟨_, _, _, _, adjust_eq_ok hm hnn, rfl, by omega, by omega, by omega, rfl,
    pad_length_ge 2 _, pad_length_ge 2 _, pad_length_ge 2 _, pad_length_ge 3 _⟩

theorem C2_adjust_render_bounds_witness :
    ∃ H M S MS,
      adjust_time_code (chars "00:00:10,000") 2500 = Except.ok (renderTimeCode H M S MS) ∧
      H = (((totalOf 0 0 10 0 : Nat) : Int) + 2500).toNat / 3600000 ∧
      M ≤ 59 ∧ S ≤ 59 ∧ MS ≤ 999 ∧
      renderTimeCode H M S MS =
        pad 2 (natDigits H) ++ ':' :: (pad 2 (natDigits M) ++ ':' ::
          (pad 2 (natDigits S) ++ ',' :: pad 3 (natDigits MS))) ∧
      2 ≤ (pad 2 (natDigits H)).length ∧ 2 ≤ (pad 2 (natDigits M)).length ∧
      2 ≤ (pad 2 (natDigits S)).length ∧ 3 ≤ (pad 3 (natDigits MS)).length :=
  C2_adjust_render_bounds (chars "00:00:10,000") 2500 0 0 10 0 (by decide) (by decide)

/-- C3: for a parsed time code the adjuster fails with the negative-result
error exactly when the total plus the adjustment is negative, and performs
no clamping: adjusting 00:00:00,000 by -1 fails with the negative-result
error, while adjusting 00:00:00,001 by -1 returns 00:00:00,000. -/
theorem C3_negative_rejection :
    (∀ (tc : Str) (adj : Int) (h m s ms : Nat), matchTimeCode tc = some (h, m, s, ms) →
      (adjust_time_code tc adj = Except.error AdjustError.negativeTime ↔
        ((totalOf h m s ms : Nat) : Int) + adj < 0)) ∧
    adjust_time_code (chars "00:00:00,000") (-1) = Except.error AdjustError.negativeTime ∧
    adjust_time_code (chars "00:00:00,001") (-1) = Except.ok (chars "00:00:00,000") := by
  refine ⟨?_, by decide, by decide⟩
  intro tc adj h m s ms hm
  exact adjust_neg_iff hm

theorem C3_negative_rejection_witness :
    adjust_time_code (chars "00:00:05,000") (-6000) = Except.error AdjustError.negativeTime :=
  (C3_negative_rejection.1 (chars "00:00:05,000") (-6000) 0 0 5 0 (by decide)).mpr (by decide)

/-- C5: a line whose start does not match the strict timing pattern is
returned unchanged by the line transformer, for any adjustment. -/
theorem C5_nontiming_invariant (line : Str) (adjustment : Int)
    (h : matchTimingLine line = none) : processLine line adjustment = Except.ok line :=
  processLine_none adjustment h

theorem C5_nontiming_invariant_witness :
    processLine (chars "Hello world\n") 12345 = Except.ok (chars "Hello world\n") :=
  C5_nontiming_invariant (chars "Hello world\n") 12345 (by decide)

/-- C9: a timestamp extracted by the strict timing pattern always matches
the adjuster's looser pattern, so when called from the line transformer the
adjuster can only fail with the negative-result error, never the
invalid-format error. -/
theorem C9_format_error_unreachable (line st en : Str)
    (h : matchTimingLine line = some (st, en)) :
    (matchTimeCode st).isSome = true ∧ (matchTimeCode en).isSome = true ∧
    (∀ (adj : Int) (err : AdjustError), adjust_time_code st adj = Except.error err →
      err = AdjustError.negativeTime) ∧
    (∀ (adj : Int) (err : AdjustError), adjust_time_code en adj = Except.error err →
      err = AdjustError.negativeTime) := by
  obtain ⟨r2, rest, h1, h2⟩ := matchTimingLine_some h
  obtain ⟨a, b, c, d, e, f, g, hh, i, da, db, dc, dd, de, df, dg, dhh, di, hst, -⟩ :=
    matchStrictStamp_some h1
  obtain ⟨a2, b2, c2, d2, e2, f2, g2, h2c, i2, da2, db2, dc2, dd2, de2, df2, dg2, dh2, di2,
    hen, -⟩ := matchStrictStamp_some h2
  subst hst
  subst hen
  have hmst := matchTimeCode_stamp da db dc dd de df dg dhh di
  have hmen := matchTimeCode_stamp da2 db2 dc2 dd2 de2 df2 dg2 dh2 di2
  exact ⟨by simp [hmst], by simp [hmen],
    fun adj err he => adjust_error_negative hmst he,
    fun adj err he => adjust_error_negative hmen he⟩

theorem C9_format_error_unreachable_witness :
    (matchTimeCode (chars "00:00:10,000")).isSome = true ∧
    (matchTimeCode (chars "00:00:12,000")).isSome = true ∧
    (∀ (adj : Int) (err : AdjustError),
      adjust_time_code (chars "00:00:10,000") adj = Except.error err →
      err = AdjustError.negativeTime) ∧
    (∀ (adj : Int) (err : AdjustError),
      adjust_time_code (chars "00:00:12,000") adj = Except.error err →
      err = AdjustError.negativeTime) :=
  C9_format_error_unreachable (chars "00:00:10,000 --> 00:00:12,000\n")
    (chars "00:00:10,000") (chars "00:00:12,000") (by decide)

theorem adjust_congr {t1 t2 : Str} (adj : Int) {h m s ms : Nat}
    (h1 : matchTimeCode t1 = some (h, m, s, ms)) (h2 : matchTimeCode t2 = some (h, m, s, ms)) :
    adjust_time_code t1 adj = adjust_time_code t2 adj := by
  by_cases hlt : ((totalOf h m s ms : Nat) : Int) + adj < 0
  · rw [(adjust_neg_iff h1).mpr hlt, (adjust_neg_iff h2).mpr hlt]
  · rw [adjust_eq_ok h1 (by omega), adjust_eq_ok h2 (by omega)]

theorem matchTimeCode_none_iff (tc : Str) :
    matchTimeCode tc = none ↔ ¬ HasLoosePrefix tc := by
  constructor
  · intro hn hp
    obtain ⟨d1, d2, d3, d4, rest, h1, hd1, h2, hd2, h3, hd3, h4, hd4, heq⟩ := hp
    obtain ⟨hr1, hr2, hr3⟩ := digitSpan_sound rfl
    have hb := matchTimeCode_build (digitSpan rest).2 h1 hd1 h2 hd2 h3 hd3
      (fun hc => h4 (List.append_eq_nil.mp hc).1)
      (fun c hc => (List.mem_append.mp hc).elim (hd4 c) (hr2 c)) hr3
    have hre : d4 ++ rest = (d4 ++ (digitSpan rest).1) ++ (digitSpan rest).2 := by
      rw [List.append_assoc, ← hr1]
    rw [heq, hre] at hn
    rw [hb] at hn
    exact absurd hn (by simp)
  · intro hnp
    cases hmc : matchTimeCode tc with
    | none => rfl
    | some q =>
      obtain ⟨hq, mq, sq, msq⟩ := q
      obtain ⟨d1, d2, d3, d4, rest, h1, hd1, h2, hd2, h3, hd3, h4, hd4, hsn, heq, -⟩ :=
        matchTimeCode_some_decomp hmc
      exact absurd ⟨d1, d2, d3, d4, rest, h1, hd1, h2, hd2, h3, hd3, h4, hd4, heq⟩ hnp

/-- C10: the adjuster fails with the invalid-format error exactly when the
input has no prefix of the loose digits:digits:digits,digits shape; when a
maximal such prefix exists, everything after it is ignored, and in
particular the input 1:2:3,4x is accepted. -/
theorem C10_loose_prefix_iff :
    (∀ (tc : Str) (adj : Int),
      adjust_time_code tc adj = Except.error (AdjustError.invalidFormat tc) ↔
        ¬ HasLoosePrefix tc) ∧
    (∀ (d1 d2 d3 d4 rest : Str) (adj : Int),
      d1 ≠ [] → (∀ c ∈ d1, isDigitCh c = true) →
      d2 ≠ [] → (∀ c ∈ d2, isDigitCh c = true) →
      d3 ≠ [] → (∀ c ∈ d3, isDigitCh c = true) →
      d4 ≠ [] → (∀ c ∈ d4, isDigitCh c = true) →
      startsNonDigit rest = true →
      adjust_time_code (d1 ++ ':' :: (d2 ++ ':' :: (d3 ++ ',' :: (d4 ++ rest)))) adj =
        adjust_time_code (d1 ++ ':' :: (d2 ++ ':' :: (d3 ++ ',' :: d4))) adj) ∧
    adjust_time_code (chars "1:2:3,4x") 0 = Except.ok (chars "01:02:03,004") := by
  refine ⟨?_, ?_, by decide⟩
  · intro tc adj
    rw [adjust_invalid_iff tc adj]
    exact matchTimeCode_none_iff tc
  · intro d1 d2 d3 d4 rest adj h1 hd1 h2 hd2 h3 hd3 h4 hd4 hsn
    have hb1 := matchTimeCode_build rest h1 hd1 h2 hd2 h3 hd3 h4 hd4 hsn
    have hb2 := matchTimeCode_build [] h1 hd1 h2 hd2 h3 hd3 h4 hd4 rfl
    rw [List.append_nil] at hb2
    exact adjust_congr adj hb1 hb2

theorem C10_loose_prefix_iff_witness :
    adjust_time_code (chars "1:2:3,4abc") 0 = adjust_time_code (chars "1:2:3,4") 0 :=
  C10_loose_prefix_iff.2.1 (chars "1") (chars "2") (chars "3") (chars "4") (chars "abc") 0
    (by decide) (by decide) (by decide) (by decide) (by decide) (by decide) (by decide)
    (by decide) (by decide)

/-- C4: when no fatal error occurs, the line transformer returns a sequence
of the same length in which every line is either unchanged (when it does
not match the strict timing pattern) or replaced by the adjusted timestamp
pair joined by the arrow and followed by a newline, dropping any content of
the original line after the matched pattern. -/
theorem C4_line_transform_shape (lines : List Str) (adjustment : Int) (out : List Str)
    (h : process_srt_file lines adjustment = Except.ok out) :
    out.length = lines.length ∧ List.Forall₂ (LineRel adjustment) lines out := by
  induction lines generalizing out with
  | nil =>
    unfold process_srt_file at h
    injection h with h1
    subst h1
    exact ⟨rfl, List.Forall₂.nil⟩
  | cons line rest ih =>
    unfold process_srt_file at h
    split at h
    next => exact absurd h (by simp)
    next l hl =>
      split at h
      next => exact absurd h (by simp)
      next ls hls =>
        injection h with h1
        subst h1
        obtain ⟨ihlen, ihrel⟩ := ih ls hls
        exact ⟨by simp [ihlen], List.Forall₂.cons (processLine_ok_inv hl) ihrel⟩

theorem C4_line_transform_shape_witness :
    ([chars "1\n", chars "00:00:10,500 --> 00:00:12,500\n"] : List Str).length =
      ([chars "1\n", chars "00:00:10,000 --> 00:00:12,000 X1\n"] : List Str).length ∧
    List.Forall₂ (LineRel 500) [chars "1\n", chars "00:00:10,000 --> 00:00:12,000 X1\n"]
      [chars "1\n", chars "00:00:10,500 --> 00:00:12,500\n"] :=
  C4_line_transform_shape [chars "1\n", chars "00:00:10,000 --> 00:00:12,000 X1\n"] 500
    [chars "1\n", chars "00:00:10,500 --> 00:00:12,500\n"] (by decide)

theorem parseSecondsMs_none {sm p : Str}
    (hp : p ∈ (if containsCh ',' sm then splitCh ',' sm else [sm]))
    (hbad : pyInt p = none) : parseSecondsMs sm = none := by
  unfold parseSecondsMs
  by_cases hc : containsCh ',' sm = true
  · rw [if_pos hc] at hp
    rw [if_pos hc]
    split
    next a b heq =>
      rw [heq] at hp
      simp only [List.mem_cons, List.not_mem_nil, or_false] at hp
      rcases hp with rfl | rfl
      · simp [hbad]
      · cases hpa : pyInt a
        · simp
        · simp [hpa, hbad]
    next => rfl
  · rw [if_neg hc] at hp
    simp only [List.mem_singleton] at hp
    subst hp
    rw [if_neg hc]
    simp [hbad]

/-- C8: an offset specification in which some numeric sub-part selected by
the grammar is not a valid integer makes the offset parser fail instead of
returning a millisecond value. -/
theorem C8_malformed_subpart_fails (s p : Str) (hp : p ∈ selectedSubparts s)
    (hbad : pyInt p = none) : calculate_adjustment_milliseconds s = none := by
  unfold selectedSubparts at hp
  unfold calculate_adjustment_milliseconds
  rcases hsp : splitCh ':' (stripMarker s).2 with - | ⟨p1, - | ⟨p2, - | ⟨p3, - | ⟨p4, ps⟩⟩⟩⟩
  · simp only [hsp] at hp
    simp only [hsp, parseSecondsMs_none hp hbad]
    rfl
  · simp only [hsp] at hp
    simp only [hsp, parseSecondsMs_none hp hbad]
    rfl
  · simp only [hsp] at hp
    rcases List.mem_append.mp hp with hmem | hmem
    · simp only [List.mem_singleton] at hmem
      subst hmem
      simp only [hsp, hbad]
      rfl
    · cases hp1 : pyInt p1
      · simp [hsp, hp1]
      · simp [hsp, hp1, parseSecondsMs_none hmem hbad]
  · simp only [hsp] at hp
    rcases List.mem_append.mp hp with hmem | hmem
    · simp only [List.mem_cons, List.not_mem_nil, or_false] at hmem
      rcases hmem with rfl | rfl
      · simp [hsp, hbad]
      · cases hp1 : pyInt p1
        · simp [hsp, hp1]
        · simp [hsp, hp1, hbad]
    · cases hp1 : pyInt p1
      · simp [hsp, hp1]
      · cases hp2 : pyInt p2
        · simp [hsp, hp1, hp2]
        · simp [hsp, hp1, hp2, parseSecondsMs_none hmem hbad]
  · simp only [hsp] at hp
    simp only [hsp, parseSecondsMs_none hp hbad]
    rfl

theorem C8_malformed_subpart_fails_witness :
    calculate_adjustment_milliseconds (chars "1:2x:3") = none :=
  C8_malformed_subpart_fails (chars "1:2x:3") (chars "2x") (by decide) (by decide)

theorem adjust_stamp_zero {a b c d e f g h i : Char}
    (da : isDigitCh a = true) (db : isDigitCh b = true) (dc : isDigitCh c = true)
    (dd : isDigitCh d = true) (de : isDigitCh e = true) (df : isDigitCh f = true)
    (dg : isDigitCh g = true) (dh : isDigitCh h = true) (di : isDigitCh i = true)
    (hm60 : digitsVal [c, d] ≤ 59) (hs60 : digitsVal [e, f] ≤ 59) :
    adjust_time_code [a, b, ':', c, d, ':', e, f, ',', g, h, i] 0
      = Except.ok [a, b, ':', c, d, ':', e, f, ',', g, h, i] := by
  have hmc := matchTimeCode_stamp da db dc dd de df dg dh di
  have hghi : digitsVal [g, h, i] < 1000 := digitsVal_triple_lt dg dh di
  rw [adjust_eq_ok hmc (by omega)]
  have ht : (((totalOf (digitsVal [a, b]) (digitsVal [c, d]) (digitsVal [e, f])
      (digitsVal [g, h, i]) : Nat) : Int) + 0).toNat
      = totalOf (digitsVal [a, b]) (digitsVal [c, d]) (digitsVal [e, f])
        (digitsVal [g, h, i]) := by omega
  rw [ht]
  have e1 : totalOf (digitsVal [a, b]) (digitsVal [c, d]) (digitsVal [e, f])
      (digitsVal [g, h, i]) / 3600000 = digitsVal [a, b] := by
    unfold totalOf
    omega
  have e2 : totalOf (digitsVal [a, b]) (digitsVal [c, d]) (digitsVal [e, f])
      (digitsVal [g, h, i]) % 3600000 / 60000 = digitsVal [c, d] := by
    unfold totalOf
    omega
  have e3 : totalOf (digitsVal [a, b]) (digitsVal [c, d]) (digitsVal [e, f])
      (digitsVal [g, h, i]) % 3600000 % 60000 / 1000 = digitsVal [e, f] := by
    unfold totalOf
    omega
  have e4 : totalOf (digitsVal [a, b]) (digitsVal [c, d]) (digitsVal [e, f])
      (digitsVal [g, h, i]) % 3600000 % 60000 % 1000 = digitsVal [g, h, i] := by
    unfold totalOf
    omega
  rw [e1, e2, e3, e4, renderTimeCode_stamp da db dc dd de df dg dh di]

/-- C6 counterexample: the line 00:99:00,000 --> 00:99:01,000 is a timing
line (99 is a valid two-digit field for the strict pattern), yet a zero
adjustment re-renders its start timestamp as 01:39:00,000, so a timing
line's rendered timestamps are not always left unchanged. -/
theorem C6_zero_adjust_counterexample :
    matchTimingLine (chars "00:99:00,000 --> 00:99:01,000\n")
      = some (chars "00:99:00,000", chars "00:99:01,000") ∧
    adjust_time_code (chars "00:99:00,000") 0 = Except.ok (chars "01:39:00,000") ∧
    chars "01:39:00,000" ≠ chars "00:99:00,000" :=
  ⟨by decide, by decide, by decide⟩

/-- C6 (amended): with a zero adjustment, a timing line whose two
timestamps have minutes and seconds at most 59 has both rendered timestamps
unchanged, and every non-timing line is returned byte-identical, for any
adjustment. -/
theorem C6_zero_adjust_amended :
    (∀ (line st en : Str) (h1 m1 s1 ms1 h2 m2 s2 ms2 : Nat),
      matchTimingLine line = some (st, en) →
      matchTimeCode st = some (h1, m1, s1, ms1) → m1 ≤ 59 → s1 ≤ 59 →
      matchTimeCode en = some (h2, m2, s2, ms2) → m2 ≤ 59 → s2 ≤ 59 →
      adjust_time_code st 0 = Except.ok st ∧ adjust_time_code en 0 = Except.ok en) ∧
    (∀ (line : Str) (adjustment : Int), matchTimingLine line = none →
      processLine line adjustment = Except.ok line) := by
  refine ⟨?_, fun line adjustment h => processLine_none adjustment h⟩
  intro line st en h1 m1 s1 ms1 h2 m2 s2 ms2 hline hst hm1 hs1 hen hm2 hs2
  obtain ⟨r2, rest, hsl1, hsl2⟩ := matchTimingLine_some hline
  obtain ⟨a, b, c, d, e, f, g, hh, i, da, db, dc, dd, de, df, dg, dhh, di, hste, -⟩ :=
    matchStrictStamp_some hsl1
  obtain ⟨a2, b2, c2, d2, e2, f2, g2, hh2, i2, da2, db2, dc2, dd2, de2, df2, dg2, dh2, di2,
    hene, -⟩ := matchStrictStamp_some hsl2
  subst hste
  subst hene
  rw [matchTimeCode_stamp da db dc dd de df dg dhh di] at hst
  rw [matchTimeCode_stamp da2 db2 dc2 dd2 de2 df2 dg2 dh2 di2] at hen
  simp only [Option.some.injEq, Prod.mk.injEq] at hst hen
  obtain ⟨q1, q2, q3, q4⟩ := hst
  obtain ⟨w1, w2, w3, w4⟩ := hen
  subst q1
  subst q2
  subst q3
  subst q4
  subst w1
  subst w2
  subst w3
  subst w4
  exact ⟨adjust_stamp_zero da db dc dd de df dg dhh di hm1 hs1,
    adjust_stamp_zero da2 db2 dc2 dd2 de2 df2 dg2 dh2 di2 hm2 hs2⟩

theorem C6_zero_adjust_amended_witness :
    adjust_time_code (chars "00:00:10,000") 0 = Except.ok (chars "00:00:10,000") ∧
    adjust_time_code (chars "00:00:12,000") 0 = Except.ok (chars "00:00:12,000") :=
  C6_zero_adjust_amended.1 (chars "00:00:10,000 --> 00:00:12,000\n")
    (chars "00:00:10,000") (chars "00:00:12,000") 0 0 10 0 0 0 12 0
    (by decide) (by decide) (by decide) (by decide) (by decide) (by decide) (by decide)

theorem totalOf_decomp (h : Nat) {m s ms : Nat} (hm : m ≤ 59) (hs : s ≤ 59) (hms : ms ≤ 999) :
    totalOf h m s ms / 3600000 = h ∧ totalOf h m s ms % 3600000 / 60000 = m ∧
    totalOf h m s ms % 3600000 % 60000 / 1000 = s ∧
    totalOf h m s ms % 3600000 % 60000 % 1000 = ms := by
  unfold totalOf
  exact ⟨by omega, by omega, by omega, by omega⟩

theorem totalOf_recomp (t : Nat) :
    totalOf (t / 3600000) (t % 3600000 / 60000) (t % 3600000 % 60000 / 1000)
      (t % 3600000 % 60000 % 1000) = t := by
  unfold totalOf
  omega

theorem adjust_render_roundtrip {tc : Str} {h m s ms : Nat} (X : Int)
    (hmc : matchTimeCode tc = some (h, m, s, ms))
    (hnn : 0 ≤ ((totalOf h m s ms : Nat) : Int) + X)
    (hub : ((totalOf h m s ms : Nat) : Int) + X < 360000000)
    (hren : renderTimeCode h m s ms = tc)
    (hm60 : m ≤ 59) (hs60 : s ≤ 59) (hms : ms ≤ 999) :
    ∃ H M S MS, H < 100 ∧ M ≤ 59 ∧ S ≤ 59 ∧ MS ≤ 999 ∧
      adjust_time_code tc X = Except.ok (renderTimeCode H M S MS) ∧
      adjust_time_code (renderTimeCode H M S MS) (-X) = Except.ok tc := by
  refine ⟨(((totalOf h m s ms : Nat) : Int) + X).toNat / 3600000,
    (((totalOf h m s ms : Nat) : Int) + X).toNat % 3600000 / 60000,
    (((totalOf h m s ms : Nat) : Int) + X).toNat % 3600000 % 60000 / 1000,
    (((totalOf h m s ms : Nat) : Int) + X).toNat % 3600000 % 60000 % 1000,
    by omega, by omega, by omega, by omega, adjust_eq_ok hmc hnn, ?_⟩
  have hH : (((totalOf h m s ms : Nat) : Int) + X).toNat / 3600000 < 100 := by omega
  have hmc2 := matchTimeCode_render hH
    (show (((totalOf h m s ms : Nat) : Int) + X).toNat % 3600000 / 60000 < 100 by omega)
    (show (((totalOf h m s ms : Nat) : Int) + X).toNat % 3600000 % 60000 / 1000 < 100 by omega)
    (show (((totalOf h m s ms : Nat) : Int) + X).toNat % 3600000 % 60000 % 1000 < 1000 by omega)
  have hrec := totalOf_recomp ((((totalOf h m s ms : Nat) : Int) + X).toNat)
  have hnn2 : 0 ≤ ((totalOf ((((totalOf h m s ms : Nat) : Int) + X).toNat / 3600000)
      ((((totalOf h m s ms : Nat) : Int) + X).toNat % 3600000 / 60000)
      ((((totalOf h m s ms : Nat) : Int) + X).toNat % 3600000 % 60000 / 1000)
      ((((totalOf h m s ms : Nat) : Int) + X).toNat % 3600000 % 60000 % 1000) : Nat) : Int)
      + (-X) := by
    rw [hrec]
    omega
  rw [adjust_eq_ok hmc2 hnn2]
  rw [hrec]
  have hback : ((((((totalOf h m s ms : Nat) : Int) + X).toNat : Nat) : Int) + (-X)).toNat
      = totalOf h m s ms := by omega
  rw [hback]
  obtain ⟨u1, u2, u3, u4⟩ := totalOf_decomp h hm60 hs60 hms
  rw [u1, u2, u3, u4, hren]

/-- C7 counterexample: a timing line with text after the matched pattern is
a timing line, yet applying +1000 ms and then -1000 ms does not reproduce
it: the first pass drops the trailing text. -/
theorem C7_inverse_counterexample :
    matchTimingLine (chars "00:00:10,000 --> 00:00:12,000 note\n")
      = some (chars "00:00:10,000", chars "00:00:12,000") ∧
    process_srt_file [chars "00:00:10,000 --> 00:00:12,000 note\n"] 1000
      = Except.ok [chars "00:00:11,000 --> 00:00:13,000\n"] ∧
    process_srt_file [chars "00:00:11,000 --> 00:00:13,000\n"] (-1000)
      = Except.ok [chars "00:00:10,000 --> 00:00:12,000\n"] ∧
    chars "00:00:10,000 --> 00:00:12,000\n" ≠ chars "00:00:10,000 --> 00:00:12,000 note\n" :=
  ⟨by decide, by decide, by decide, by decide⟩

/-- C7 (amended): a timing line consisting exactly of the two timestamps
joined by the arrow and a newline, whose minutes and seconds are at most 59
and whose adjusted totals stay non-negative and below 100 hours, is
reproduced exactly by applying adjustment +X and then -X. -/
theorem C7_inverse_amended (st en : Str) (X : Int) (h1 m1 s1 ms1 h2 m2 s2 ms2 : Nat)
    (hline : matchTimingLine (st ++ ' ' :: '-' :: '-' :: '>' :: ' ' :: (en ++ ['\n']))
      = some (st, en))
    (hst : matchTimeCode st = some (h1, m1, s1, ms1)) (hm1 : m1 ≤ 59) (hs1 : s1 ≤ 59)
    (hen : matchTimeCode en = some (h2, m2, s2, ms2)) (hm2 : m2 ≤ 59) (hs2 : s2 ≤ 59)
    (hnn1 : 0 ≤ ((totalOf h1 m1 s1 ms1 : Nat) : Int) + X)
    (hub1 : ((totalOf h1 m1 s1 ms1 : Nat) : Int) + X < 360000000)
    (hnn2 : 0 ≤ ((totalOf h2 m2 s2 ms2 : Nat) : Int) + X)
    (hub2 : ((totalOf h2 m2 s2 ms2 : Nat) : Int) + X < 360000000) :
    ∃ mid : Str,
      processLine (st ++ ' ' :: '-' :: '-' :: '>' :: ' ' :: (en ++ ['\n'])) X
        = Except.ok mid ∧
      processLine mid (-X)
        = Except.ok (st ++ ' ' :: '-' :: '-' :: '>' :: ' ' :: (en ++ ['\n'])) := by
  obtain ⟨r2, rest, hsl1, hsl2⟩ := matchTimingLine_some hline
  obtain ⟨a, b, c, d, e, f, g, hh, i, da, db, dc, dd, de, df, dg, dhh, di, hste, -⟩ :=
    matchStrictStamp_some hsl1
  obtain ⟨a2, b2, c2, d2, e2, f2, g2, hh2, i2, da2, db2, dc2, dd2, de2, df2, dg2, dh2, di2,
    hene, -⟩ := matchStrictStamp_some hsl2
  subst hste
  subst hene
  rw [matchTimeCode_stamp da db dc dd de df dg dhh di] at hst
  rw [matchTimeCode_stamp da2 db2 dc2 dd2 de2 df2 dg2 dh2 di2] at hen
  simp only [Option.some.injEq, Prod.mk.injEq] at hst hen
  obtain ⟨q1, q2, q3, q4⟩ := hst
  obtain ⟨w1, w2, w3, w4⟩ := hen
  subst q1
  subst q2
  subst q3
  subst q4
  subst w1
  subst w2
  subst w3
  subst w4
  have hms1 : digitsVal [g, hh, i] ≤ 999 := by
    have := digitsVal_triple_lt dg dhh di
    omega
  have hms2 : digitsVal [g2, hh2, i2] ≤ 999 := by
    have := digitsVal_triple_lt dg2 dh2 di2
    omega
  obtain ⟨H1, M1, S1, MS1, hH1, hM1, hS1, hMS1, hfwd1, hbwd1⟩ :=
    adjust_render_roundtrip X (matchTimeCode_stamp da db dc dd de df dg dhh di) hnn1 hub1
      (renderTimeCode_stamp da db dc dd de df dg dhh di) hm1 hs1 hms1
  obtain ⟨H2, M2, S2, MS2, hH2, hM2, hS2, hMS2, hfwd2, hbwd2⟩ :=
    adjust_render_roundtrip X (matchTimeCode_stamp da2 db2 dc2 dd2 de2 df2 dg2 dh2 di2) hnn2
      hub2 (renderTimeCode_stamp da2 db2 dc2 dd2 de2 df2 dg2 dh2 di2) hm2 hs2 hms2
  refine ⟨renderTimeCode H1 M1 S1 MS1 ++ ' ' :: '-' :: '-' :: '>' :: ' ' ::
    (renderTimeCode H2 M2 S2 MS2 ++ ['\n']), processLine_eq_ok hline hfwd1 hfwd2, ?_⟩
  have hmid : matchTimingLine (renderTimeCode H1 M1 S1 MS1 ++ ' ' :: '-' :: '-' :: '>' :: ' ' ::
      (renderTimeCode H2 M2 S2 MS2 ++ ['\n']))
      = some (renderTimeCode H1 M1 S1 MS1, renderTimeCode H2 M2 S2 MS2) :=
    matchTimingLine_eq_some_of
      (matchStrictStamp_render (' ' :: '-' :: '-' :: '>' :: ' ' ::
        (renderTimeCode H2 M2 S2 MS2 ++ ['\n'])) hH1 (by omega) (by omega) (by omega))
      (matchStrictStamp_render ['\n'] hH2 (by omega) (by omega) (by omega))
  exact processLine_eq_ok hmid hbwd1 hbwd2

theorem C7_inverse_amended_witness :
    ∃ mid : Str,
      processLine (chars "00:00:10,000" ++ ' ' :: '-' :: '-' :: '>' :: ' ' ::
        (chars "00:00:12,000" ++ ['\n'])) 1000 = Except.ok mid ∧
      processLine mid (-1000)
        = Except.ok (chars "00:00:10,000" ++ ' ' :: '-' :: '-' :: '>' :: ' ' ::
          (chars "00:00:12,000" ++ ['\n'])) :=
  C7_inverse_amended (chars "00:00:10,000") (chars "00:00:12,000") 1000 0 0 10 0 0 0 12 0
    (by decide) (by decide) (by decide) (by decide) (by decide) (by decide) (by decide)
    (by decide) (by decide) (by decide) (by decide)

/-! ### The offset parser against the grammar of the specification -/

theorem parseSecondsMs_comma {s ms : Str} (hs : DigitStr s) (hms : DigitStr ms) :
    parseSecondsMs (s ++ ',' :: ms) = some ((digitsVal s : Int), (digitsVal ms : Int)) := by
  unfold parseSecondsMs
  rw [if_pos (containsCh_append_cons ',' s ms)]
  have hnc : ∀ c ∈ s, c ≠ ',' := fun c hc => (isDigitCh_ne (hs.2 c hc)).2.1
  have hnc2 : ∀ c ∈ ms, c ≠ ',' := fun c hc => (isDigitCh_ne (hms.2 c hc)).2.1
  rw [splitCh_append ms hnc, splitCh_not_mem hnc2]
  simp [pyInt_digits hs.1 hs.2, pyInt_digits hms.1 hms.2]

theorem parseSecondsMs_plain {s : Str} (hs : DigitStr s) :
    parseSecondsMs s = some ((digitsVal s : Int), 0) := by
  unfold parseSecondsMs
  have hnc : ∀ c ∈ s, c ≠ ',' := fun c hc => (isDigitCh_ne (hs.2 c hc)).2.1
  rw [if_neg (by simp [containsCh_eq_false hnc])]
  rw [pyInt_digits hs.1 hs.2]
  rfl

theorem append_head_digit {d : Str} (t : Str) (hne : d ≠ []) (hdg : ∀ c ∈ d, isDigitCh c = true) :
    ∃ c r, d ++ t = c :: r ∧ isDigitCh c = true := by
  cases d with
  | nil => exact absurd rfl hne
  | cons c cs => exact ⟨c, cs ++ t, rfl, hdg c (by simp)⟩

theorem offsetBody_strip {b : Str} {n : Nat} (hb : OffsetBody b n) : stripMarker b = (1, b) := by
  have hhead : ∃ c t, b = c :: t ∧ isDigitCh c = true := by
    rcases hb with ⟨h, m, s, ms, ⟨hne, hdg⟩, -, -, -, rfl, -⟩ |
      ⟨h, m, s, ⟨hne, hdg⟩, -, -, rfl, -⟩ |
      ⟨m, s, ms, ⟨hne, hdg⟩, -, -, rfl, -⟩ |
      ⟨m, s, ⟨hne, hdg⟩, -, rfl, -⟩ |
      ⟨s, ms, ⟨hne, hdg⟩, -, rfl, -⟩ |
      ⟨s, ⟨hne, hdg⟩, rfl, -⟩
    · exact append_head_digit _ hne hdg
    · exact append_head_digit _ hne hdg
    · exact append_head_digit _ hne hdg
    · exact append_head_digit _ hne hdg
    · exact append_head_digit _ hne hdg
    · simpa using append_head_digit [] hne hdg
  obtain ⟨c, t, rfl, hcd⟩ := hhead
  exact stripMarker_digit_head t hcd

theorem calc_of_body {b : Str} {n : Nat} (hb : OffsetBody b n) (sg : Int) (str : Str)
    (hstrip : stripMarker str = (sg, b)) :
    calculate_adjustment_milliseconds str = some ((n : Int) * sg) := by
  rcases hb with
    ⟨h, m, s, ms, ⟨hne, hdg⟩, ⟨mne, mdg⟩, ⟨sne, sdg⟩, ⟨msne, msdg⟩, rfl, rfl⟩ |
    ⟨h, m, s, ⟨hne, hdg⟩, ⟨mne, mdg⟩, ⟨sne, sdg⟩, rfl, rfl⟩ |
    ⟨m, s, ms, ⟨mne, mdg⟩, ⟨sne, sdg⟩, ⟨msne, msdg⟩, rfl, rfl⟩ |
    ⟨m, s, ⟨mne, mdg⟩, ⟨sne, sdg⟩, rfl, rfl⟩ |
    ⟨s, ms, ⟨sne, sdg⟩, ⟨msne, msdg⟩, rfl, rfl⟩ |
    ⟨s, ⟨sne, sdg⟩, rfl, rfl⟩
  · have hcol_h : ∀ c ∈ h, c ≠ ':' := fun c hc => (isDigitCh_ne (hdg c hc)).1
    have hcol_m : ∀ c ∈ m, c ≠ ':' := fun c hc => (isDigitCh_ne (mdg c hc)).1
    have hcol_sm : ∀ c ∈ s ++ ',' :: ms, c ≠ ':' := by
      intro c hc
      rcases List.mem_append.mp hc with hc | hc
      · exact (isDigitCh_ne (sdg c hc)).1
      · rcases List.mem_cons.mp hc with rfl | hc
        · decide
        · exact (isDigitCh_ne (msdg c hc)).1
    simp only [calculate_adjustment_milliseconds, hstrip,
      splitCh_append (m ++ ':' :: (s ++ ',' :: ms)) hcol_h,
      splitCh_append (s ++ ',' :: ms) hcol_m,
      splitCh_not_mem hcol_sm,
      pyInt_digits hne hdg, pyInt_digits mne mdg,
      parseSecondsMs_comma ⟨sne, sdg⟩ ⟨msne, msdg⟩, Option.map_some']
    exact congrArg some (by push_cast; ring)
  · have hcol_h : ∀ c ∈ h, c ≠ ':' := fun c hc => (isDigitCh_ne (hdg c hc)).1
    have hcol_m : ∀ c ∈ m, c ≠ ':' := fun c hc => (isDigitCh_ne (mdg c hc)).1
    have hcol_s : ∀ c ∈ s, c ≠ ':' := fun c hc => (isDigitCh_ne (sdg c hc)).1
    simp only [calculate_adjustment_milliseconds, hstrip,
      splitCh_append (m ++ ':' :: s) hcol_h,
      splitCh_append s hcol_m,
      splitCh_not_mem hcol_s,
      pyInt_digits hne hdg, pyInt_digits mne mdg,
      parseSecondsMs_plain ⟨sne, sdg⟩, Option.map_some']
    exact congrArg some (by push_cast; ring)
  · have hcol_m : ∀ c ∈ m, c ≠ ':' := fun c hc => (isDigitCh_ne (mdg c hc)).1
    have hcol_sm : ∀ c ∈ s ++ ',' :: ms, c ≠ ':' := by
      intro c hc
      rcases List.mem_append.mp hc with hc | hc
      · exact (isDigitCh_ne (sdg c hc)).1
      · rcases List.mem_cons.mp hc with rfl | hc
        · decide
        · exact (isDigitCh_ne (msdg c hc)).1
    simp only [calculate_adjustment_milliseconds, hstrip,
      splitCh_append (s ++ ',' :: ms) hcol_m,
      splitCh_not_mem hcol_sm,
      pyInt_digits mne mdg,
      parseSecondsMs_comma ⟨sne, sdg⟩ ⟨msne, msdg⟩, Option.map_some']
    exact congrArg some (by push_cast; ring)
  · have hcol_m : ∀ c ∈ m, c ≠ ':' := fun c hc => (isDigitCh_ne (mdg c hc)).1
    have hcol_s : ∀ c ∈ s, c ≠ ':' := fun c hc => (isDigitCh_ne (sdg c hc)).1
    simp only [calculate_adjustment_milliseconds, hstrip,
      splitCh_append s hcol_m,
      splitCh_not_mem hcol_s,
      pyInt_digits mne mdg,
      parseSecondsMs_plain ⟨sne, sdg⟩, Option.map_some']
    exact congrArg some (by push_cast; ring)
  · have hcol_sm : ∀ c ∈ s ++ ',' :: ms, c ≠ ':' := by
      intro c hc
      rcases List.mem_append.mp hc with hc | hc
      · exact (isDigitCh_ne (sdg c hc)).1
      · rcases List.mem_cons.mp hc with rfl | hc
        · decide
        · exact (isDigitCh_ne (msdg c hc)).1
    simp only [calculate_adjustment_milliseconds, hstrip,
      splitCh_not_mem hcol_sm,
      parseSecondsMs_comma ⟨sne, sdg⟩ ⟨msne, msdg⟩, Option.map_some']
    exact congrArg some (by push_cast; ring)
  · have hcol_s : ∀ c ∈ b, c ≠ ':' := fun c hc => (isDigitCh_ne (sdg c hc)).1
    simp only [calculate_adjustment_milliseconds, hstrip,
      splitCh_not_mem hcol_s,
      parseSecondsMs_plain ⟨sne, sdg⟩, Option.map_some']
    exact congrArg some (by push_cast; ring)

/-- C1: every offset specification generated by the grammar of the
specification is parsed by the offset parser to exactly the signed value
sign times (hours times 3600000 plus minutes times 60000 plus seconds
times 1000 plus milliseconds). -/
theorem C1_offset_formula (str : Str) (v : Int) (hg : OffsetGrammar str v) :
    calculate_adjustment_milliseconds str = some v := by
  obtain ⟨b, n, hb, hcase⟩ := hg
  rcases hcase with ⟨rfl, rfl⟩ | ⟨rfl, rfl⟩ | ⟨rfl, rfl⟩
  · rw [calc_of_body hb 1 str (offsetBody_strip hb)]
    simp
  · rw [calc_of_body hb 1 ('A' :: b) rfl]
    simp
  · rw [calc_of_body hb (-1) ('D' :: b) rfl]
    simp

theorem C1_offset_formula_witness :
    calculate_adjustment_milliseconds (chars "D1:02:3,45") = some (-3723045) := by
  have hg : OffsetGrammar (chars "D1:02:3,45") (-3723045) := by
    refine ⟨chars "1:02:3,45", 3723045, ?_, Or.inr (Or.inr ⟨by decide, by decide⟩)⟩
    exact Or.inl ⟨chars "1", chars "02", chars "3", chars "45", ⟨by decide, by decide⟩,
      ⟨by decide, by decide⟩, ⟨by decide, by decide⟩, ⟨by decide, by decide⟩,
      by decide, by decide⟩
  exact C1_offset_formula (chars "D1:02:3,45") (-3723045) hg
